import Mathlib

/-!
Shallow embedding of the PluginManager class of this repository
(`lib/PluginManager.js`, provided as `src/unnamed/part_002`, lines 72-274)
together with the parts of the filesystem interface that its loader methods
consume. JavaScript `undefined` is modelled by `Option.none`; a hook
callback's behaviour (return a value, return `undefined`, or throw/reject)
is an explicit sum; the `Map` objects `this.plugins` and `this.hooks`
are association lists in insertion order, which is how JavaScript `Map`
iterates. Logging via `console.warn`/`console.error`/`console.log` is kept
only where a claim refers to it: `runHook` counts its `console.error`
calls, and `init` produces an explicit event trace. The `middleware`
array of the class is not modelled: no claim under study mentions it.
-/

namespace PluginSystem

/-- Result of invoking one hook callback (`await callback(result)`,
line 158): it may resolve to a JavaScript value (`ret (some x)`),
resolve to `undefined` (`ret none`), or throw/reject (`thrown`). -/
inductive CbRes (α : Type) where
  | thrown : CbRes α
  | ret : Option α → CbRes α

/-- A hook callback: a function from the current data value to a result. -/
def Cb (α : Type) := Option α → CbRes α

/-- What one `runHook` call produces: the returned `result` and the number
of `console.error` calls made while absorbing throwing callbacks. -/
structure HookRun (α : Type) where
  result : Option α
  errorsLogged : Nat
deriving Repr

/-- The loop of `runHook` (lines 156-166): for each callback in order,
invoke it on the accumulated `result`; if it throws, log the error and
keep `result`; if it returns `undefined`, keep `result`; otherwise the
output becomes the new `result`. -/
def runCallbacks {α : Type} : List (Cb α) → Option α → HookRun α
  | [], r => ⟨r, 0⟩
  | cb :: cbs, r =>
    match cb r with
    | CbRes.thrown =>
      let o := runCallbacks cbs r
      ⟨o.result, o.errorsLogged + 1⟩
    | CbRes.ret none => runCallbacks cbs r
    | CbRes.ret (some x) => runCallbacks cbs (some x)

/-- `this.hooks.get(hookName) || []` (line 153): the callback list for a
name, `[]` when no entry exists. -/
def hooksGet {α : Type} (hooks : List (String × List (Cb α))) (name : String) :
    List (Cb α) :=
  match hooks.find? (fun p => p.1 == name) with
  | some p => p.2
  | none => []

/-- Plugin metadata as far as the manager consumes it: only the optional
`name` field is ever read (line 236). -/
structure Metadata where
  name? : Option String
deriving DecidableEq, Repr

/-- A plugin module as the manager sees it. `init?` is `some b` when the
module has a callable `init` (`b = true`: the call resolves; `b = false`:
it throws/rejects), and `none` when `init` is absent or not a function
(lines 90-92). `metadata?` is the optional `metadata` object. -/
structure PluginModule where
  init? : Option Bool
  metadata? : Option Metadata
deriving DecidableEq, Repr

/-- The record stored in `this.plugins` (lines 94-98):
`{ instance: plugin, enabled: true, metadata: plugin.metadata || {} }`. -/
structure PluginRecord where
  plugin : PluginModule
  enabled : Bool
  metadata : Metadata
deriving DecidableEq, Repr

/-- The manager state (constructor, lines 73-78): the plugin `Map` and the
hook `Map` as insertion-ordered association lists, plus the
`initialized` flag. `α` is the type of (defined) hook data values. -/
structure PluginManager (α : Type) where
  plugins : List (String × PluginRecord)
  hooks : List (String × List (Cb α))
  initialized : Bool

/-- `runHook(hookName, data)` (lines 152-169). -/
def runHook {α : Type} (pm : PluginManager α) (name : String) (data : Option α) :
    HookRun α :=
  runCallbacks (hooksGet pm.hooks name) data

/-- `registerHook(hookName, callback)` (lines 140-145): create the entry if
absent, then push the callback at the end of its list. -/
def registerHook {α : Type} (pm : PluginManager α) (name : String) (cb : Cb α) :
    PluginManager α :=
  if pm.hooks.any (fun p => p.1 == name) then
    { pm with hooks :=
        pm.hooks.map (fun p => if p.1 == name then (p.1, p.2 ++ [cb]) else p) }
  else
    { pm with hooks := pm.hooks ++ [(name, [cb])] }

/-- The two errors `register` can throw (lines 86-92). -/
inductive RegError where
  | duplicateName : String → RegError
  | invalidPlugin : String → RegError
deriving DecidableEq, Repr

/-- The record built on successful registration (lines 94-98);
`plugin.metadata || {}` becomes `getD` of the empty metadata. -/
def recordOf (plugin : PluginModule) : PluginRecord :=
  ⟨plugin, true, plugin.metadata?.getD ⟨none⟩⟩

/-- Whether `this.plugins.has(name)` (line 86). -/
def hasPlugin {α : Type} (pm : PluginManager α) (name : String) : Bool :=
  pm.plugins.any (fun p => p.1 == name)

/-- `register(name, plugin)` (lines 85-102): throw on a duplicate name,
throw when the module has no callable `init`, otherwise store the record
and return the (updated) manager for chaining. -/
def register {α : Type} (pm : PluginManager α) (name : String)
    (plugin : PluginModule) : Except RegError (PluginManager α) :=
  if hasPlugin pm name then
    Except.error (RegError.duplicateName name)
  else if plugin.init?.isNone then
    Except.error (RegError.invalidPlugin name)
  else
    Except.ok { pm with plugins := pm.plugins ++ [(name, recordOf plugin)] }

/-- `getPlugin(name)` (lines 214-216): `this.plugins.get(name)`. -/
def getPlugin {α : Type} (pm : PluginManager α) (name : String) :
    Option PluginRecord :=
  (pm.plugins.find? (fun p => p.1 == name)).map Prod.snd

/-- `list()` (lines 221-227): `{name, enabled, metadata}` per plugin, in
registration order. -/
def list {α : Type} (pm : PluginManager α) : List (String × Bool × Metadata) :=
  pm.plugins.map (fun p => (p.1, p.2.enabled, p.2.metadata))

/-- The error `enable`/`disable` throw on an unknown name (lines 193, 205). -/
inductive ToggleError where
  | notFound : String → ToggleError
deriving DecidableEq, Repr

/-- Flip the `enabled` flag of the record stored under `name`
(`plugin.enabled = true/false`, lines 195 and 207; the `Map` keeps the
mutated record in place). -/
def setEnabled {α : Type} (pm : PluginManager α) (name : String) (b : Bool) :
    PluginManager α :=
  { pm with plugins :=
      pm.plugins.map (fun p => if p.1 == name then (p.1, { p.2 with enabled := b }) else p) }

/-- `enable(name)` (lines 190-196). -/
def enable {α : Type} (pm : PluginManager α) (name : String) :
    Except ToggleError (PluginManager α) :=
  if pm.plugins.any (fun p => p.1 == name) then
    Except.ok (setEnabled pm name true)
  else
    Except.error (ToggleError.notFound name)

/-- `disable(name)` (lines 202-208). -/
def disable {α : Type} (pm : PluginManager α) (name : String) :
    Except ToggleError (PluginManager α) :=
  if pm.plugins.any (fun p => p.1 == name) then
    Except.ok (setEnabled pm name false)
  else
    Except.error (ToggleError.notFound name)

/-- Observable events of one `init(app)` call: the `console.warn` of the
already-initialized early return (line 110), the skip log for a disabled
plugin (line 118), the invocation of a plugin's `init` (line 123), the
`console.error` when that invocation throws (line 126), and the firing of
a hook by name (line 132). -/
inductive Event where
  | warnedAlreadyInitialized : Event
  | skippedDisabled : String → Event
  | initInvoked : String → Event
  | initFailed : String → Event
  | hookFired : String → Event
deriving DecidableEq, Repr

/-- Whether calling `pluginData.instance.init(app, this)` resolves: it does
exactly when the module has a callable `init` that succeeds; an absent
`init` would throw a `TypeError` inside the same `try`, so `none` behaves
like a throwing `init`. -/
def initSucceeds (m : PluginModule) : Bool :=
  match m.init? with
  | some true => true
  | _ => false

/-- What one `init(app)` call produces: the manager afterwards, the event
trace, and `some name` when plugin `name`'s `init` threw and the error
was re-thrown out of `init` (line 127), else `none`. -/
structure InitOutcome (α : Type) where
  pm : PluginManager α
  trace : List Event
  failed? : Option String

/-- The `for (const [name, pluginData] of this.plugins)` loop of `init`
(lines 116-132) including what follows it: a disabled plugin is skipped
with a log; an enabled plugin's `init` is awaited, and on a throw the
error is logged and re-thrown, ending the call with the manager
unchanged; after the whole loop, `initialized` is set and the
`plugins:initialized` hook fires. -/
def initLoop {α : Type} (pm : PluginManager α) :
    List (String × PluginRecord) → InitOutcome α
  | [] =>
    ⟨{ pm with initialized := true }, [Event.hookFired "plugins:initialized"], none⟩
  | (name, rec) :: rest =>
    if rec.enabled then
      if initSucceeds rec.plugin then
        let o := initLoop pm rest
        ⟨o.pm, Event.initInvoked name :: o.trace, o.failed?⟩
      else
        ⟨pm, [Event.initInvoked name, Event.initFailed name], some name⟩
    else
      let o := initLoop pm rest
      ⟨o.pm, Event.skippedDisabled name :: o.trace, o.failed?⟩

/-- `init(app)` (lines 108-133), the method the spec calls `initAll`: if
`initialized` is already set, warn and return; otherwise run the loop
over the registered plugins in registration order. -/
def initAll {α : Type} (pm : PluginManager α) : InitOutcome α :=
  if pm.initialized then
    ⟨pm, [Event.warnedAlreadyInitialized], none⟩
  else
    initLoop pm pm.plugins

/-- `pluginPath.split('/').pop()` (line 236): the part of the path after
the last `'/'` (the whole path when it has no slash, the empty string
when it ends in one — exactly what `split` followed by `pop` gives). -/
def basename (path : String) : String :=
  String.mk (path.data.foldl (fun acc c => if c = '/' then [] else acc ++ [c]) [])

/-- JavaScript `String.prototype.endsWith` with a string argument, as used
in `file.endsWith('.js')` (line 259). -/
def jsEndsWith (s pat : String) : Bool :=
  pat.data.isSuffixOf s.data

/-- The character pattern of the extension literal `'.js'`. -/
def jsPat : List Char := ['.', 'j', 's']

/-- JavaScript `String.prototype.replace` with a string pattern and the
empty replacement, as used in `.replace('.js', '')` (line 236): remove
the FIRST occurrence of the pattern, scanning left to right; leave the
string unchanged when the pattern does not occur. -/
def listReplaceFirst (pat : List Char) : List Char → List Char
  | [] => []
  | c :: rest =>
    if pat.isPrefixOf (c :: rest) then (c :: rest).drop pat.length
    else c :: listReplaceFirst pat rest

/-- `plugin.metadata?.name` under JavaScript truthiness, as consumed by
`plugin.metadata?.name || ...` (line 236): the name when metadata exists
and its `name` is a non-empty string, else fall through. -/
def jsTruthyName (m? : Option Metadata) : Option String :=
  match m? with
  | some m =>
    match m.name? with
    | some s => if s = "" then none else some s
    | none => none
  | none => none

/-- The registration name `load` derives (line 236):
`plugin.metadata?.name || pluginPath.split('/').pop().replace('.js', '')`. -/
def deriveName (path : String) (mod : PluginModule) : String :=
  match jsTruthyName mod.metadata? with
  | some s => s
  | none => String.mk (listReplaceFirst jsPat (basename path).data)

/-- The filesystem and module system as the loader consumes them:
`fs.existsSync`, `fs.readdirSync` (file names in the order the listing
returns them — `readdirSync` applies no sort), and `require` (which may
throw, modelled by `none`). -/
structure FileSystem where
  dirExists : String → Bool
  listing : String → List String
  moduleAt : String → Option PluginModule

/-- The failures `load` re-throws (lines 239-242): the `require` throw or
the `register` throw, both logged and propagated. -/
inductive LoadError where
  | importFailed : String → LoadError
  | regFailed : RegError → LoadError
deriving DecidableEq, Repr

/-- `load(pluginPath)` (lines 233-243): `require` the module, derive the
name, `register`, and return the name; any error is logged and
re-thrown. -/
def load {α : Type} (fsys : FileSystem) (pm : PluginManager α) (path : String) :
    Except LoadError (PluginManager α × String) :=
  match fsys.moduleAt path with
  | none => Except.error (LoadError.importFailed path)
  | some mod =>
    let name := deriveName path mod
    match register pm name mod with
    | Except.error e => Except.error (LoadError.regFailed e)
    | Except.ok pm' => Except.ok (pm', name)

/-- The `files` array of `loadFromDirectory` (lines 258-260): the listing
filtered to names ending in `.js`, each joined to the directory with a
path separator (`path.join` on POSIX relative names). -/
def jsFiles (fsys : FileSystem) (dir : String) : List String :=
  ((fsys.listing dir).filter (fun f => jsEndsWith f ".js")).map (fun f => dir ++ "/" ++ f)

/-- The `for (const file of files)` loop of `loadFromDirectory`
(lines 264-270): `load` each file; a failure is caught and logged and the
loop continues with the next file. -/
def loadFiles {α : Type} (fsys : FileSystem) :
    PluginManager α → List String → PluginManager α
  | pm, [] => pm
  | pm, f :: rest =>
    match load fsys pm f with
    | Except.ok (pm', _) => loadFiles fsys pm' rest
    | Except.error _ => loadFiles fsys pm rest

/-- `loadFromDirectory(pluginsDir)` (lines 249-271): when the directory
does not exist, warn and return leaving the manager unchanged; otherwise
load the `.js` files of the listing, in listing order. -/
def loadFromDirectory {α : Type} (fsys : FileSystem) (pm : PluginManager α)
    (dir : String) : PluginManager α :=
  if fsys.dirExists dir then loadFiles fsys pm (jsFiles fsys dir) else pm

/-- Stripping the standard `'.js'` extension from the END of a base name,
which is what the spec's words "the file's base name with the standard
extension stripped" describe. Stated from the spec for comparison with
`deriveName`, which embeds the source's `.replace('.js', '')`. -/
def stripTrailingJs (s : String) : String :=
  if jsEndsWith s ".js" then String.mk (s.data.take (s.data.length - 3)) else s

/-- The net effect of one loop iteration of `runHook` on `result`
(lines 156-166): a defined output replaces it, while `undefined` or a
caught throw leaves it unchanged. Used to state the threading law. -/
def hookStep {α : Type} (r : Option α) (cb : Cb α) : Option α :=
  match cb r with
  | CbRes.ret (some x) => some x
  | _ => r

/-- The trace the `init` loop produces while walking plugins none of
which throws: one `initInvoked` per enabled plugin, one
`skippedDisabled` per disabled plugin, in registration order. -/
def cleanTrace : List (String × PluginRecord) → List Event
  | [] => []
  | (n, r) :: rest =>
    (if r.enabled then Event.initInvoked n else Event.skippedDisabled n) :: cleanTrace rest

/-! Concrete inputs used by the witness and counterexample theorems. -/

/-- A module with a succeeding `init` and no metadata. -/
def okMod : PluginModule := ⟨some true, none⟩

/-- A module whose `init` throws. -/
def badMod : PluginModule := ⟨some false, none⟩

/-- An empty manager over `Nat` hook data. -/
def pmEmpty : PluginManager Nat := ⟨[], [], false⟩

/-- A callback returning `undefined`. -/
def cbUndef : Cb Nat := fun _ => CbRes.ret none

/-- A callback returning the value `7`. -/
def cbSeven : Cb Nat := fun _ => CbRes.ret (some 7)

/-- A callback that throws. -/
def cbThrow : Cb Nat := fun _ => CbRes.thrown

/-- A callback returning the value `9`. -/
def cbNine : Cb Nat := fun _ => CbRes.ret (some 9)

/-- A manager whose hook table has `[cbUndef, cbSeven]` under `"h"` and
`[cbSeven, cbThrow, cbNine]` under `"t"`. -/
def pmHooks : PluginManager Nat :=
  ⟨[], [("h", [cbUndef, cbSeven]), ("t", [cbSeven, cbThrow, cbNine])], false⟩

/-- A manager holding, in registration order, an enabled succeeding
plugin, a disabled plugin, an enabled plugin whose `init` throws, and a
further enabled succeeding plugin. -/
def pmMixed : PluginManager Nat :=
  ⟨[("ok1", ⟨okMod, true, ⟨none⟩⟩), ("dis", ⟨okMod, false, ⟨none⟩⟩),
    ("boom", ⟨badMod, true, ⟨none⟩⟩), ("late", ⟨okMod, true, ⟨none⟩⟩)], [], false⟩

/-- A manager with two enabled succeeding plugins. -/
def pmGood : PluginManager Nat :=
  ⟨[("ok1", ⟨okMod, true, ⟨none⟩⟩), ("ok2", ⟨okMod, true, ⟨none⟩⟩)], [], false⟩

/-- A filesystem whose directory `plugins` lists `b.js` before `a.js` —
`readdirSync` gives no ordering guarantee — with a loadable module in
each file. -/
def fsUnsorted : FileSystem :=
  { dirExists := fun d => d == "plugins"
    listing := fun d => if d == "plugins" then ["b.js", "a.js"] else []
    moduleAt := fun p =>
      if p == "plugins/b.js" || p == "plugins/a.js" then some okMod else none }

/-- A filesystem whose directory `plugins` lists a loadable file, then a
file whose import throws, then another loadable file. -/
def fsOneBad : FileSystem :=
  { dirExists := fun d => d == "plugins"
    listing := fun d => if d == "plugins" then ["a.js", "broken.js", "c.js"] else []
    moduleAt := fun p =>
      if p == "plugins/a.js" || p == "plugins/c.js" then some okMod else none }

/-- A filesystem with a loadable, metadata-free module at
`plugins/my.js.plugin.js`. -/
def fsWeirdName : FileSystem :=
  { dirExists := fun _ => false
    listing := fun _ => []
    moduleAt := fun p => if p == "plugins/my.js.plugin.js" then some okMod else none }

/-- A filesystem with a loadable, metadata-free module at
`plugins/logger.js`. -/
def fsLogger : FileSystem :=
  { dirExists := fun _ => false
    listing := fun _ => []
    moduleAt := fun p => if p == "plugins/logger.js" then some okMod else none }

/-! Helper lemmas about the hook loop. -/

theorem runCallbacks_result_eq_foldl {α : Type} (cbs : List (Cb α)) (v : Option α) :
    (runCallbacks cbs v).result = cbs.foldl hookStep v := by
  induction cbs generalizing v with
  | nil => rfl
  | cons cb cbs ih =>
    cases hc : cb v with
    | thrown => simp [runCallbacks, hc, ih, hookStep]
    | ret o => cases o <;> simp [runCallbacks, hc, ih, hookStep]

theorem runCallbacks_result_append {α : Type} (cbs1 cbs2 : List (Cb α)) (v : Option α) :
    (runCallbacks (cbs1 ++ cbs2) v).result =
      (runCallbacks cbs2 (runCallbacks cbs1 v).result).result := by
  induction cbs1 generalizing v with
  | nil => simp [runCallbacks]
  | cons cb cbs ih =>
    cases hc : cb v with
    | thrown => simp [runCallbacks, hc, ih]
    | ret o => cases o <;> simp [runCallbacks, hc, ih]

theorem runCallbacks_errors_append {α : Type} (cbs1 cbs2 : List (Cb α)) (v : Option α) :
    (runCallbacks (cbs1 ++ cbs2) v).errorsLogged =
      (runCallbacks cbs1 v).errorsLogged +
        (runCallbacks cbs2 (runCallbacks cbs1 v).result).errorsLogged := by
  induction cbs1 generalizing v with
  | nil => simp [runCallbacks]
  | cons cb cbs ih =>
    cases hc : cb v with
    | thrown => simp [runCallbacks, hc, ih]; omega
    | ret o => cases o <;> simp [runCallbacks, hc, ih]

/-- C2: for every hook name and input value, `runHook` threads the input
through the registered callbacks in registration order — the net step
replaces the accumulated value by a callback's output unless that output
is the `undefined` sentinel, in which case the previous value is
retained; with no callbacks registered for the name the input is
returned unchanged; and with callbacks `[f1, f2]` where `f1` returns
`undefined` and `f2` returns the defined value `w`, the result is `w`. -/
theorem runHook_threading {α : Type} (pm : PluginManager α) (name : String)
    (v : Option α) :
    ((runHook pm name v).result = (hooksGet pm.hooks name).foldl hookStep v)
    ∧ (hooksGet pm.hooks name = [] → (runHook pm name v).result = v)
    ∧ (∀ cb cbs, hooksGet pm.hooks name = cb :: cbs →
        (runHook pm name v).result = (runCallbacks cbs (hookStep v cb)).result)
    ∧ (∀ f1 f2 w, hooksGet pm.hooks name = [f1, f2] →
        f1 v = CbRes.ret none → f2 v = CbRes.ret (some w) →
        (runHook pm name v).result = some w) := by
  refine ⟨?_, ?_, ?_, ?_⟩
  · rw [runHook, runCallbacks_result_eq_foldl]
  · intro h
    rw [runHook, h]
    rfl
  · intro cb cbs h
    rw [runHook, h]
    cases hc : cb v with
    | thrown => simp [runCallbacks, hc, hookStep]
    | ret o => cases o <;> simp [runCallbacks, hc, hookStep]
  · intro f1 f2 w h h1 h2
    rw [runHook, h]
    simp [runCallbacks, h1, h2]

/-- Witness for C2 at concrete inputs: a name with no callbacks returns
the input, and `[cbUndef, cbSeven]` on input `1` yields `7`. -/
theorem runHook_threading_witness :
    (runHook pmHooks "nope" (some 1)).result = some 1
    ∧ (runHook pmHooks "h" (some 1)).result = some 7 := by
  constructor
  · exact (runHook_threading pmHooks "nope" (some 1)).2.1 rfl
  · exact (runHook_threading pmHooks "h" (some 1)).2.2.2 cbUndef cbSeven 7 rfl rfl rfl

/-- C3: `runHook` is a total function — it always completes and returns a
value — and a callback that throws at the accumulated value is caught
and logged (one more `console.error`) and treated as if it returned the
sentinel: the accumulated value is left unchanged and the remaining
callbacks still run on it. -/
theorem runHook_absorbs_thrown {α : Type} (pm : PluginManager α) (name : String)
    (v : Option α) (cbs1 cbs2 : List (Cb α)) (f : Cb α)
    (hget : hooksGet pm.hooks name = cbs1 ++ f :: cbs2)
    (hthrow : f (runCallbacks cbs1 v).result = CbRes.thrown) :
    (runHook pm name v).result =
      (runCallbacks cbs2 (runCallbacks cbs1 v).result).result
    ∧ (runHook pm name v).errorsLogged =
        (runCallbacks cbs1 v).errorsLogged + 1 +
          (runCallbacks cbs2 (runCallbacks cbs1 v).result).errorsLogged := by
  constructor
  · rw [runHook, hget, runCallbacks_result_append]
    simp [runCallbacks, hthrow]
  · rw [runHook, hget, runCallbacks_errors_append]
    simp [runCallbacks, hthrow]
    omega

/-- Witness for C3 at a concrete input: under `"t"` the middle callback
throws; the first callback's output `7` survives to the third, which
returns `9`; one error is logged. -/
theorem runHook_absorbs_thrown_witness :
    (runHook pmHooks "t" (some 1)).result = some 9
    ∧ (runHook pmHooks "t" (some 1)).errorsLogged = 1 := by
  have h := runHook_absorbs_thrown pmHooks "t" (some 1) [cbSeven] [cbNine] cbThrow
    rfl rfl
  exact ⟨h.1, h.2⟩

/-! Helper lemmas about the registry. -/

theorem register_ok_eq {α : Type} (pm : PluginManager α) (name : String)
    (plugin : PluginModule) (pm' : PluginManager α)
    (h : register pm name plugin = Except.ok pm') :
    hasPlugin pm name = false ∧ plugin.init?.isSome = true ∧
      pm' = { pm with plugins := pm.plugins ++ [(name, recordOf plugin)] } := by
  unfold register at h
  by_cases h1 : hasPlugin pm name
  · simp [h1] at h
  · by_cases h2 : plugin.init?.isNone
    · simp [h1, h2] at h
    · refine ⟨by simpa using h1, ?_, ?_⟩
      · cases hi : plugin.init? with
        | none => rw [hi] at h2; simp at h2
        | some b => rfl
      · simp [h1, h2] at h
        exact h.symm

theorem getPlugin_last {α : Type} (pm : PluginManager α) (name : String)
    (rec : PluginRecord) (h : hasPlugin pm name = false) :
    getPlugin { pm with plugins := pm.plugins ++ [(name, rec)] } name = some rec := by
  have hn : pm.plugins.find? (fun p => p.1 == name) = none := by
    rw [List.find?_eq_none]
    intro x hx hpx
    have : pm.plugins.any (fun p => p.1 == name) = true :=
      List.any_eq_true.mpr ⟨x, hx, hpx⟩
    rw [hasPlugin] at h
    rw [h] at this
    exact Bool.noConfusion this
  unfold getPlugin
  simp only [List.find?_append, hn]
  simp [List.find?]

theorem hasPlugin_last {α : Type} (pm : PluginManager α) (name : String)
    (rec : PluginRecord) :
    hasPlugin { pm with plugins := pm.plugins ++ [(name, rec)] } name = true := by
  unfold hasPlugin
  rw [List.any_eq_true]
  exact ⟨(name, rec), by simp, by simp⟩

/-- C4: `register(name, module)` fails exactly when `name` is already
present or the module has no callable `init`; the duplicate-name failure
is the `DuplicateNameError` and, the model being an `Except`, leaves the
manager — and so the previously registered record — untouched; on
success the new record is stored at the end with `enabled = true` and
the updated registry is returned for chaining. The last conjunct is the
spec's two-registration scenario: after registering under `name`, a
second `register` under the same `name` fails with the duplicate error
while `getPlugin` still returns the first module's record. -/
theorem register_spec {α : Type} (pm : PluginManager α) (name : String)
    (plugin : PluginModule) :
    ((∃ e, register pm name plugin = Except.error e) ↔
      (hasPlugin pm name = true ∨ plugin.init? = none))
    ∧ (hasPlugin pm name = true →
        register pm name plugin = Except.error (RegError.duplicateName name))
    ∧ (∀ pm', register pm name plugin = Except.ok pm' →
        pm'.plugins = pm.plugins ++ [(name, recordOf plugin)]
        ∧ pm'.hooks = pm.hooks ∧ pm'.initialized = pm.initialized
        ∧ (recordOf plugin).enabled = true
        ∧ getPlugin pm' name = some (recordOf plugin))
    ∧ (∀ pm1 q2, register pm name plugin = Except.ok pm1 →
        register pm1 name q2 = Except.error (RegError.duplicateName name)
        ∧ getPlugin pm1 name = some (recordOf plugin)) := by
  refine ⟨⟨?_, ?_⟩, ?_, ?_, ?_⟩
  · rintro ⟨e, he⟩
    unfold register at he
    by_cases h1 : hasPlugin pm name
    · exact Or.inl h1
    · by_cases h2 : plugin.init?.isNone
      · exact Or.inr (Option.isNone_iff_eq_none.mp h2)
      · simp [h1, h2] at he
  · intro h
    rcases h with h | h
    · exact ⟨RegError.duplicateName name, by simp [register, h]⟩
    · by_cases h1 : hasPlugin pm name
      · exact ⟨RegError.duplicateName name, by simp [register, h1]⟩
      · exact ⟨RegError.invalidPlugin name, by simp [register, h1, h]⟩
  · intro h
    simp [register, h]
  · intro pm' h
    obtain ⟨h1, _, h3⟩ := register_ok_eq pm name plugin pm' h
    subst h3
    exact ⟨rfl, rfl, rfl, rfl, getPlugin_last pm name _ h1⟩
  · intro pm1 q2 h
    obtain ⟨h1, _, h3⟩ := register_ok_eq pm name plugin pm1 h
    subst h3
    refine ⟨?_, getPlugin_last pm name _ h1⟩
    simp [register, hasPlugin_last pm name (recordOf plugin)]

/-- Witness for C4 at concrete inputs: registering `okMod` under `"p"`
into the empty manager succeeds with an enabled record, and a second
registration under `"p"` fails with the duplicate error leaving the
first record readable. -/
theorem register_spec_witness :
    ∃ pm1, register pmEmpty "p" okMod = Except.ok pm1
      ∧ register pm1 "p" badMod = Except.error (RegError.duplicateName "p")
      ∧ getPlugin pm1 "p" = some (recordOf okMod)
      ∧ (recordOf okMod).enabled = true := by
  refine ⟨{ pmEmpty with plugins := pmEmpty.plugins ++ [("p", recordOf okMod)] }, rfl, ?_⟩
  have h := (register_spec pmEmpty "p" okMod).2.2.2
    { pmEmpty with plugins := pmEmpty.plugins ++ [("p", recordOf okMod)] } badMod rfl
  exact ⟨h.1, h.2, rfl⟩

/-! Helper lemmas about the initialization loop. -/

theorem initLoop_cons_disabled {α : Type} (pm : PluginManager α) (name : String)
    (rec : PluginRecord) (rest : List (String × PluginRecord))
    (he : rec.enabled = false) :
    initLoop pm ((name, rec) :: rest) =
      ⟨(initLoop pm rest).pm, Event.skippedDisabled name :: (initLoop pm rest).trace,
        (initLoop pm rest).failed?⟩ := by
  simp [initLoop, he]

theorem initLoop_cons_ok {α : Type} (pm : PluginManager α) (name : String)
    (rec : PluginRecord) (rest : List (String × PluginRecord))
    (he : rec.enabled = true) (hs : initSucceeds rec.plugin = true) :
    initLoop pm ((name, rec) :: rest) =
      ⟨(initLoop pm rest).pm, Event.initInvoked name :: (initLoop pm rest).trace,
        (initLoop pm rest).failed?⟩ := by
  simp [initLoop, he, hs]

theorem initLoop_cons_fail {α : Type} (pm : PluginManager α) (name : String)
    (rec : PluginRecord) (rest : List (String × PluginRecord))
    (he : rec.enabled = true) (hs : initSucceeds rec.plugin = false) :
    initLoop pm ((name, rec) :: rest) =
      ⟨pm, [Event.initInvoked name, Event.initFailed name], some name⟩ := by
  simp [initLoop, he, hs]

theorem initLoop_pm_of_failed {α : Type} (pm : PluginManager α)
    (l : List (String × PluginRecord)) (n : String)
    (h : (initLoop pm l).failed? = some n) : (initLoop pm l).pm = pm := by
  induction l with
  | nil => simp [initLoop] at h
  | cons p rest ih =>
    obtain ⟨name, rec⟩ := p
    cases he : rec.enabled with
    | false =>
      rw [initLoop_cons_disabled pm name rec rest he] at h ⊢
      exact ih h
    | true =>
      cases hs : initSucceeds rec.plugin with
      | false => rw [initLoop_cons_fail pm name rec rest he hs]
      | true =>
        rw [initLoop_cons_ok pm name rec rest he hs] at h ⊢
        exact ih h

theorem initLoop_pm_of_none {α : Type} (pm : PluginManager α)
    (l : List (String × PluginRecord))
    (h : (initLoop pm l).failed? = none) :
    (initLoop pm l).pm = { pm with initialized := true } := by
  induction l with
  | nil => simp [initLoop]
  | cons p rest ih =>
    obtain ⟨name, rec⟩ := p
    cases he : rec.enabled with
    | false =>
      rw [initLoop_cons_disabled pm name rec rest he] at h ⊢
      exact ih h
    | true =>
      cases hs : initSucceeds rec.plugin with
      | false =>
        rw [initLoop_cons_fail pm name rec rest he hs] at h
        simp at h
      | true =>
        rw [initLoop_cons_ok pm name rec rest he hs] at h ⊢
        exact ih h

theorem initLoop_no_warned {α : Type} (pm : PluginManager α)
    (l : List (String × PluginRecord)) :
    Event.warnedAlreadyInitialized ∉ (initLoop pm l).trace := by
  induction l with
  | nil => simp [initLoop]
  | cons p rest ih =>
    obtain ⟨name, rec⟩ := p
    cases he : rec.enabled with
    | false =>
      rw [initLoop_cons_disabled pm name rec rest he]
      simp
      exact ih
    | true =>
      cases hs : initSucceeds rec.plugin with
      | false =>
        rw [initLoop_cons_fail pm name rec rest he hs]
        simp
      | true =>
        rw [initLoop_cons_ok pm name rec rest he hs]
        simp
        exact ih

theorem initLoop_clean_append {α : Type} (pm : PluginManager α)
    (pre rest : List (String × PluginRecord))
    (h : ∀ p ∈ pre, p.2.enabled = false ∨ initSucceeds p.2.plugin = true) :
    initLoop pm (pre ++ rest) =
      ⟨(initLoop pm rest).pm, cleanTrace pre ++ (initLoop pm rest).trace,
        (initLoop pm rest).failed?⟩ := by
  induction pre with
  | nil => simp [cleanTrace]
  | cons p pre' ih =>
    obtain ⟨name, rec⟩ := p
    have hp := h (name, rec) (by simp)
    have ih' := ih (fun q hq => h q (List.mem_cons_of_mem _ hq))
    cases he : rec.enabled with
    | false =>
      rw [List.cons_append, initLoop_cons_disabled pm name rec _ he, ih']
      simp [cleanTrace, he]
    | true =>
      have hs : initSucceeds rec.plugin = true := by
        rcases hp with hp | hp
        · rw [he] at hp
          exact Bool.noConfusion hp
        · exact hp
      rw [List.cons_append, initLoop_cons_ok pm name rec _ he hs, ih']
      simp [cleanTrace, he]

theorem mem_cleanTrace_iff (l : List (String × PluginRecord)) (e : Event) :
    e ∈ cleanTrace l ↔
      ∃ p ∈ l, (p.2.enabled = true ∧ e = Event.initInvoked p.1)
        ∨ (p.2.enabled = false ∧ e = Event.skippedDisabled p.1) := by
  induction l with
  | nil => simp [cleanTrace]
  | cons p rest ih =>
    obtain ⟨name, rec⟩ := p
    cases he : rec.enabled with
    | false =>
      simp only [cleanTrace, he, if_neg (by simp : ¬(false = true))]
      simp [ih, he]
    | true =>
      simp only [cleanTrace, he, if_pos rfl]
      simp [ih, he]

/-- C5: on the first `init` run (flag not yet set), with every plugin
registered before the failing one disabled or succeeding, and the
failing plugin enabled with a throwing `init`: the error is re-thrown
(`failed?` set), the manager is left unchanged, the trace walks the
earlier plugins in registration order — each disabled one skipped —
and ends at the failure; the `plugins:initialized` hook is not fired,
and only enabled earlier plugins or the failing one are ever invoked,
so no plugin registered after the failing one has its `init` invoked. -/
theorem initAll_failure_aborts {α : Type} (pm : PluginManager α)
    (pre post : List (String × PluginRecord)) (fname : String) (frec : PluginRecord)
    (hinit : pm.initialized = false)
    (hsplit : pm.plugins = pre ++ (fname, frec) :: post)
    (hpre : ∀ p ∈ pre, p.2.enabled = false ∨ initSucceeds p.2.plugin = true)
    (hen : frec.enabled = true)
    (hfail : initSucceeds frec.plugin = false) :
    (initAll pm).failed? = some fname
    ∧ (initAll pm).pm = pm
    ∧ (initAll pm).trace =
        cleanTrace pre ++ [Event.initInvoked fname, Event.initFailed fname]
    ∧ Event.hookFired "plugins:initialized" ∉ (initAll pm).trace
    ∧ (∀ n, Event.initInvoked n ∈ (initAll pm).trace →
        n ∈ ((pre.filter (fun p => p.2.enabled)).map Prod.fst) ∨ n = fname)
    ∧ (∀ p ∈ pre, p.2.enabled = false →
        Event.skippedDisabled p.1 ∈ (initAll pm).trace) := by
  have hrun : initAll pm =
      ⟨pm, cleanTrace pre ++ [Event.initInvoked fname, Event.initFailed fname],
        some fname⟩ := by
    rw [initAll, if_neg (by simp [hinit]), hsplit,
      initLoop_clean_append pm pre _ hpre,
      initLoop_cons_fail pm fname frec post hen hfail]
  refine ⟨by rw [hrun], by rw [hrun], by rw [hrun], ?_, ?_, ?_⟩
  · rw [hrun]
    simp only [List.mem_append]
    rintro (hc | hc)
    · rw [mem_cleanTrace_iff] at hc
      rcases hc with ⟨p, _, ⟨_, hpeq⟩ | ⟨_, hpeq⟩⟩ <;> exact Event.noConfusion hpeq
    · simp at hc
  · intro n hn
    rw [hrun] at hn
    rw [List.mem_append] at hn
    rcases hn with hn | hn
    · rw [mem_cleanTrace_iff] at hn
      rcases hn with ⟨p, hp, ⟨hpe, hpeq⟩ | ⟨_, hpeq⟩⟩
      · left
        have : n = p.1 := by
          injection hpeq
        subst this
        exact List.mem_map.mpr ⟨p, List.mem_filter.mpr ⟨hp, hpe⟩, rfl⟩
      · exact Event.noConfusion hpeq
    · simp at hn
      exact Or.inr hn
  · intro p hp hpd
    rw [hrun]
    exact List.mem_append_left _
      ((mem_cleanTrace_iff pre _).mpr ⟨p, hp, Or.inr ⟨hpd, rfl⟩⟩)

/-- Witness for C5 on `pmMixed`: the run fails at `"boom"`, after invoking
`"ok1"` and skipping the disabled `"dis"`; `"late"` is never invoked and
the lifecycle hook is not fired. -/
theorem initAll_failure_aborts_witness :
    (initAll pmMixed).failed? = some "boom"
    ∧ (initAll pmMixed).trace =
        [Event.initInvoked "ok1", Event.skippedDisabled "dis",
          Event.initInvoked "boom", Event.initFailed "boom"]
    ∧ Event.hookFired "plugins:initialized" ∉ (initAll pmMixed).trace
    ∧ Event.initInvoked "late" ∉ (initAll pmMixed).trace := by
  have h := initAll_failure_aborts pmMixed
    [("ok1", ⟨okMod, true, ⟨none⟩⟩), ("dis", ⟨okMod, false, ⟨none⟩⟩)]
    [("late", ⟨okMod, true, ⟨none⟩⟩)] "boom" ⟨badMod, true, ⟨none⟩⟩
    rfl rfl (by decide) rfl rfl
  refine ⟨h.1, ?_, h.2.2.2.1, ?_⟩
  · rw [h.2.2.1]
    rfl
  · intro hmem
    rcases h.2.2.2.2.1 "late" hmem with hc | hc
    · revert hc
      decide
    · revert hc
      decide

/-- C6: once `init` has completed successfully, a further `init` call is
a no-op — it logs the already-initialized warning, returns the manager
unchanged, invokes no plugin's `init`, and does not fire the
`plugins:initialized` hook again. -/
theorem initAll_second_noop {α : Type} (pm : PluginManager α)
    (hinit : pm.initialized = false)
    (hok : (initAll pm).failed? = none) :
    (initAll pm).pm.initialized = true
    ∧ initAll ((initAll pm).pm) =
        ⟨(initAll pm).pm, [Event.warnedAlreadyInitialized], none⟩
    ∧ (∀ n, Event.initInvoked n ∉ (initAll ((initAll pm).pm)).trace)
    ∧ (∀ h, Event.hookFired h ∉ (initAll ((initAll pm).pm)).trace) := by
  have hloop : initAll pm = initLoop pm pm.plugins := by
    rw [initAll, if_neg (by simp [hinit])]
  have hset : (initAll pm).pm.initialized = true := by
    rw [hloop, initLoop_pm_of_none pm pm.plugins (by rw [← hloop]; exact hok)]
  have hwarn : initAll ((initAll pm).pm) =
      ⟨(initAll pm).pm, [Event.warnedAlreadyInitialized], none⟩ := by
    rw [initAll, if_pos (by rw [hset])]
  refine ⟨hset, hwarn, ?_, ?_⟩
  · intro n
    rw [hwarn]
    simp
  · intro h
    rw [hwarn]
    simp

/-- Witness for C6 on `pmGood`: the first run succeeds; the second run
warns and changes nothing. -/
theorem initAll_second_noop_witness :
    (initAll pmGood).pm.initialized = true
    ∧ initAll ((initAll pmGood).pm) =
        ⟨(initAll pmGood).pm, [Event.warnedAlreadyInitialized], none⟩
    ∧ Event.initInvoked "ok1" ∉ (initAll ((initAll pmGood).pm)).trace := by
  have h := initAll_second_noop pmGood rfl rfl
  exact ⟨h.1, h.2.1, h.2.2.1 "ok1"⟩

/-- C9: if `init` aborted because an enabled plugin's `init` threw, the
`initialized` flag is still false and the manager unchanged, so a later
`init` call is not treated as already-initialized (no warning): it runs
the same loop again, re-invoking `init` on every plugin invoked in the
failed run — including those whose `init` had already succeeded before
the failure. -/
theorem initAll_failure_not_latched {α : Type} (pm : PluginManager α) (n : String)
    (hinit : pm.initialized = false)
    (hfail : (initAll pm).failed? = some n) :
    (initAll pm).pm = pm
    ∧ (initAll pm).pm.initialized = false
    ∧ initAll ((initAll pm).pm) = initAll pm
    ∧ Event.warnedAlreadyInitialized ∉ (initAll ((initAll pm).pm)).trace
    ∧ (∀ nm, Event.initInvoked nm ∈ (initAll pm).trace →
        Event.initInvoked nm ∈ (initAll ((initAll pm).pm)).trace) := by
  have hloop : initAll pm = initLoop pm pm.plugins := by
    rw [initAll, if_neg (by simp [hinit])]
  have hpm : (initAll pm).pm = pm := by
    rw [hloop]
    exact initLoop_pm_of_failed pm pm.plugins n (by rw [← hloop]; exact hfail)
  have hsame : initAll ((initAll pm).pm) = initAll pm := by rw [hpm]
  refine ⟨hpm, by rw [hpm]; exact hinit, hsame, ?_, ?_⟩
  · rw [hsame, hloop]
    exact initLoop_no_warned pm pm.plugins
  · intro nm hnm
    rw [hsame]
    exact hnm

/-- Witness for C9 on `pmMixed`: the first run fails at `"boom"`, the flag
stays false, the second call behaves identically and re-invokes
`"ok1"`. -/
theorem initAll_failure_not_latched_witness :
    (initAll pmMixed).pm = pmMixed
    ∧ (initAll pmMixed).pm.initialized = false
    ∧ initAll ((initAll pmMixed).pm) = initAll pmMixed
    ∧ Event.initInvoked "ok1" ∈ (initAll ((initAll pmMixed).pm)).trace := by
  have h := initAll_failure_not_latched pmMixed "boom" rfl rfl
  refine ⟨h.1, h.2.1, h.2.2.1, h.2.2.2.2 "ok1" ?_⟩
  decide

/-- C10: a plugin registered after a successful `init` run is accepted —
its record appears in `list()` with `enabled = true` — but every later
`init` call warns and returns at once, so its `init` is never invoked;
disabling it, or disabling and re-enabling it, leaves every later
`init` call the same warn-and-return no-op. -/
theorem late_register_never_initialized {α : Type} (pm : PluginManager α)
    (name : String) (q : PluginModule) (pm2 : PluginManager α)
    (hinit : pm.initialized = false)
    (hok : (initAll pm).failed? = none)
    (hreg : register (initAll pm).pm name q = Except.ok pm2) :
    (name, true, q.metadata?.getD ⟨none⟩) ∈ PluginSystem.list pm2
    ∧ initAll pm2 = ⟨pm2, [Event.warnedAlreadyInitialized], none⟩
    ∧ (∀ nm, Event.initInvoked nm ∉ (initAll pm2).trace)
    ∧ (∀ pm3, disable pm2 name = Except.ok pm3 →
        initAll pm3 = ⟨pm3, [Event.warnedAlreadyInitialized], none⟩
        ∧ (∀ nm, Event.initInvoked nm ∉ (initAll pm3).trace))
    ∧ (∀ pm3 pm4, disable pm2 name = Except.ok pm3 → enable pm3 name = Except.ok pm4 →
        initAll pm4 = ⟨pm4, [Event.warnedAlreadyInitialized], none⟩) := by
  have hset : (initAll pm).pm.initialized = true := by
    rw [initAll, if_neg (by simp [hinit])]
    exact congrArg PluginManager.initialized
      (initLoop_pm_of_none pm pm.plugins
        (by rw [initAll, if_neg (by simp [hinit])] at hok; exact hok))
  obtain ⟨_, _, hpm2⟩ := register_ok_eq (initAll pm).pm name q pm2 hreg
  have hpm2init : pm2.initialized = true := by rw [hpm2]; exact hset
  have hmem : (name, true, q.metadata?.getD ⟨none⟩) ∈ PluginSystem.list pm2 := by
    rw [hpm2]
    unfold PluginSystem.list
    simp only [List.map_append]
    refine List.mem_append_right _ ?_
    simp [recordOf]
  have hnoop : ∀ pmx : PluginManager α, pmx.initialized = true →
      initAll pmx = ⟨pmx, [Event.warnedAlreadyInitialized], none⟩ := by
    intro pmx hx
    rw [initAll, if_pos (by rw [hx])]
  refine ⟨hmem, hnoop pm2 hpm2init, ?_, ?_, ?_⟩
  · intro nm
    rw [hnoop pm2 hpm2init]
    simp
  · intro pm3 hdis
    have hpm3 : pm3 = setEnabled pm2 name false := by
      rw [disable] at hdis
      by_cases hc : pm2.plugins.any (fun p => p.1 == name)
      · simp [hc] at hdis
        exact hdis.symm
      · simp [hc] at hdis
    have hpm3init : pm3.initialized = true := by
      rw [hpm3, setEnabled]
      exact hpm2init
    refine ⟨hnoop pm3 hpm3init, ?_⟩
    intro nm
    rw [hnoop pm3 hpm3init]
    simp
  · intro pm3 pm4 hdis hen
    have hpm3 : pm3 = setEnabled pm2 name false := by
      rw [disable] at hdis
      by_cases hc : pm2.plugins.any (fun p => p.1 == name)
      · simp [hc] at hdis
        exact hdis.symm
      · simp [hc] at hdis
    have hpm4 : pm4 = setEnabled pm3 name true := by
      rw [enable] at hen
      by_cases hc : pm3.plugins.any (fun p => p.1 == name)
      · simp [hc] at hen
        exact hen.symm
      · simp [hc] at hen
    have hpm4init : pm4.initialized = true := by
      rw [hpm4, setEnabled, hpm3, setEnabled]
      exact hpm2init
    exact hnoop pm4 hpm4init

/-- Witness for C10: register `badMod` (a plugin whose `init` would throw
if it ever ran) under `"extra"` after `pmGood` initialized; it is listed
enabled, yet later `init` calls stay warn-only no-ops, also after
disabling and re-enabling it. -/
theorem late_register_never_initialized_witness :
    ∃ pm2, register (initAll pmGood).pm "extra" badMod = Except.ok pm2
      ∧ ("extra", true, (⟨none⟩ : Metadata)) ∈ PluginSystem.list pm2
      ∧ initAll pm2 = ⟨pm2, [Event.warnedAlreadyInitialized], none⟩
      ∧ Event.initInvoked "extra" ∉ (initAll pm2).trace := by
  refine ⟨{ (initAll pmGood).pm with
    plugins := (initAll pmGood).pm.plugins ++ [("extra", recordOf badMod)] }, rfl, ?_⟩
  have h := late_register_never_initialized pmGood "extra" badMod
    { (initAll pmGood).pm with
      plugins := (initAll pmGood).pm.plugins ++ [("extra", recordOf badMod)] }
    rfl rfl rfl
  exact ⟨h.1, h.2.1, h.2.2.1 "extra"⟩

/-! Helper lemmas about the loader. -/

theorem loadFiles_append {α : Type} (fsys : FileSystem) (pm : PluginManager α)
    (xs ys : List String) :
    loadFiles fsys pm (xs ++ ys) = loadFiles fsys (loadFiles fsys pm xs) ys := by
  induction xs generalizing pm with
  | nil => rfl
  | cons f rest ih =>
    simp only [List.cons_append, loadFiles]
    cases h : load fsys pm f with
    | ok r =>
      obtain ⟨pm', n⟩ := r
      simp [h, ih]
    | error e => simp [h, ih]

theorem listReplaceFirst_of_late_pat (pat t : List Char)
    (h : ∀ i, i < t.length → pat.isPrefixOf ((t ++ pat).drop i) = false) :
    listReplaceFirst pat (t ++ pat) = t := by
  induction t with
  | nil =>
    cases pat with
    | nil => rfl
    | cons c cs =>
      simp only [List.nil_append, listReplaceFirst]
      rw [if_pos (by rw [List.isPrefixOf_iff_prefix])]
      exact List.drop_length (c :: cs)
  | cons c t' ih =>
    have h0 : pat.isPrefixOf (c :: (t' ++ pat)) = false := by
      have := h 0 (by simp)
      simpa using this
    have hih : listReplaceFirst pat (t' ++ pat) = t' := by
      refine ih ?_
      intro i hi
      have := h (i + 1) (by simpa using Nat.succ_lt_succ hi)
      simpa using this
    simp only [List.cons_append, listReplaceFirst]
    rw [if_neg (by simp [h0])]
    exact congrArg (List.cons c) hih

/-- C7: `loadFromDirectory` on a directory that does not exist returns
without error (the function is total) and leaves the registry unchanged
— zero plugins registered by that call; and inside an existing
directory, a file whose `load` fails is caught and logged and the
remaining files are still loaded. -/
theorem loadFromDirectory_tolerant {α : Type} (fsys : FileSystem)
    (pm : PluginManager α) (dir : String) :
    (fsys.dirExists dir = false → loadFromDirectory fsys pm dir = pm)
    ∧ (∀ pre bad post, fsys.dirExists dir = true →
        jsFiles fsys dir = pre ++ bad :: post →
        (∃ e, load fsys (loadFiles fsys pm pre) bad = Except.error e) →
        loadFromDirectory fsys pm dir =
          loadFiles fsys (loadFiles fsys pm pre) post) := by
  constructor
  · intro h
    rw [loadFromDirectory, if_neg (by simp [h])]
  · rintro pre bad post hex hsplit ⟨e, he⟩
    rw [loadFromDirectory, if_pos (by rw [hex]), hsplit, loadFiles_append]
    simp only [loadFiles, he]

/-- Witness for C7: a nonexistent directory leaves the registry unchanged;
in `fsOneBad`, the unloadable `broken.js` is skipped while `a.js` and
`c.js` are both registered. -/
theorem loadFromDirectory_tolerant_witness :
    loadFromDirectory fsOneBad pmEmpty "nope" = pmEmpty
    ∧ loadFromDirectory fsOneBad pmEmpty "plugins" =
        loadFiles fsOneBad (loadFiles fsOneBad pmEmpty ["plugins/a.js"])
          ["plugins/c.js"]
    ∧ (loadFromDirectory fsOneBad pmEmpty "plugins").plugins.map Prod.fst
        = ["a", "c"] := by
  refine ⟨(loadFromDirectory_tolerant fsOneBad pmEmpty "nope").1 rfl, ?_, rfl⟩
  exact (loadFromDirectory_tolerant fsOneBad pmEmpty "plugins").2
    ["plugins/a.js"] "plugins/broken.js" ["plugins/c.js"] rfl rfl
    ⟨LoadError.importFailed "plugins/broken.js", rfl⟩

/-- C1: the code, evaluated at a directory whose `readdirSync` listing is
`["b.js", "a.js"]`: `loadFromDirectory` applies no sort, so the plugins
are registered in listing order — `b` before `a` — whereas the claim
(and the repository's own `PLUGIN_SYSTEM.md`, "Plugins are loaded
alphabetically by filename") requires `a` before `b`. -/
theorem loadFromDirectory_listing_order_bug :
    (loadFromDirectory fsUnsorted pmEmpty "plugins").plugins.map Prod.fst
        = ["b", "a"]
    ∧ (["b", "a"] : List String) ≠ ["a", "b"] := by
  exact ⟨rfl, by decide⟩

/-- C8 counterexample: `load` on `plugins/my.js.plugin.js` registers the
module under `"my.plugin.js"` — `.replace('.js', '')` removed the FIRST
occurrence of `.js` — while stripping the trailing extension from the
base name gives `"my.js.plugin"`, a different string. -/
theorem load_name_counterexample :
    (∃ pm', load fsWeirdName pmEmpty "plugins/my.js.plugin.js" =
      Except.ok (pm', "my.plugin.js"))
    ∧ stripTrailingJs (basename "plugins/my.js.plugin.js") = "my.js.plugin"
    ∧ ("my.plugin.js" : String) ≠ "my.js.plugin" := by
  refine ⟨⟨{ pmEmpty with
    plugins := pmEmpty.plugins ++ [("my.plugin.js", recordOf okMod)] }, rfl⟩,
    rfl, by decide⟩

/-- C8 (amended): `load` imports the module at the path and registers it
under `module.metadata.name` when that is present and non-empty, else
under the file's base name with the FIRST occurrence of the substring
`.js` removed; when `.js` occurs in the base name only as its trailing
extension, this coincides with stripping the trailing extension. -/
theorem load_name_derivation {α : Type} (fsys : FileSystem)
    (pm : PluginManager α) (path : String) (mod : PluginModule)
    (hmod : fsys.moduleAt path = some mod) :
    (∀ pm' n, load fsys pm path = Except.ok (pm', n) →
      n = deriveName path mod ∧ getPlugin pm' n = some (recordOf mod))
    ∧ (∀ s, jsTruthyName mod.metadata? = some s → deriveName path mod = s)
    ∧ (jsTruthyName mod.metadata? = none →
        deriveName path mod = String.mk (listReplaceFirst jsPat (basename path).data))
    ∧ (∀ t, jsTruthyName mod.metadata? = none →
        (basename path).data = t ++ jsPat →
        (∀ i, i < t.length → jsPat.isPrefixOf ((basename path).data.drop i) = false) →
        deriveName path mod = String.mk t
        ∧ String.mk t = stripTrailingJs (basename path)) := by
  refine ⟨?_, ?_, ?_, ?_⟩
  · intro pm' n h
    rw [load, hmod] at h
    simp only at h
    cases hr : register pm (deriveName path mod) mod with
    | error e => rw [hr] at h; exact Except.noConfusion h
    | ok pm'' =>
      rw [hr] at h
      have hpair : (pm'', deriveName path mod) = (pm', n) := by
        injection h
      have hpm' : pm'' = pm' := congrArg Prod.fst hpair
      have hn : deriveName path mod = n := congrArg Prod.snd hpair
      obtain ⟨hdup, _, hpm⟩ := register_ok_eq pm (deriveName path mod) mod pm'' hr
      refine ⟨hn.symm, ?_⟩
      rw [← hn, ← hpm', hpm]
      exact getPlugin_last pm (deriveName path mod) _ hdup
  · intro s hs
    rw [deriveName, hs]
  · intro hn
    rw [deriveName, hn]
  · intro t hn ht hocc
    have hrepl : listReplaceFirst jsPat (basename path).data = t := by
      rw [ht]
      refine listReplaceFirst_of_late_pat jsPat t ?_
      intro i hi
      have := hocc i hi
      rw [ht] at this
      exact this
    have hname : deriveName path mod = String.mk t := by
      rw [deriveName, hn, hrepl]
    refine ⟨hname, ?_⟩
    have hends : jsEndsWith (basename path) ".js" = true := by
      rw [jsEndsWith]
      have : (".js" : String).data = jsPat := rfl
      rw [this, ht]
      unfold List.isSuffixOf
      simp [List.reverse_append]
    rw [stripTrailingJs, if_pos (by rw [hends]), ht]
    have hlen : (t ++ jsPat).length - 3 = t.length := by
      simp [jsPat]
    rw [hlen, List.take_left t jsPat]

/-- Witness for C8 (amended) at `plugins/logger.js`: no metadata, no early
`.js` occurrence, so the derived name is `logger`, the trailing-stripped
base name. -/
theorem load_name_derivation_witness :
    deriveName "plugins/logger.js" okMod = "logger"
    ∧ String.mk "logger".data = stripTrailingJs (basename "plugins/logger.js") := by
  have h := (load_name_derivation fsLogger pmEmpty "plugins/logger.js" okMod rfl).2.2.2
    "logger".data rfl rfl (by decide)
  exact ⟨h.1, h.2⟩

end PluginSystem
